import Mathlib

/-!
Verification of the NoteBook search/indexing engine (`searchService.js`)
against its natural-language specification.

Strings are modelled as lists of characters (`Str`).  JavaScript string
operations used by the source are embedded as follows:
* `s.toLowerCase()`              — `lower` (character-wise `Char.toLower`);
* `hay.includes(needle)`         — `strContains` (substring containment);
* `s.split(/\s+/)`               — `splitWs`.  JS `split(/\s+/)` may emit a
  single empty token at a boundary when the string starts or ends with
  whitespace; every call site in the source immediately filters tokens by a
  positive length bound (`length > 2` in the tokenizer, `length > 0` for
  query terms), so the run-splitter that never emits empty tokens is
  extensionally identical at every call site;
* `s.replace(/[^\w]/g, '')`      — `List.filter isWordChar`;
* `arr.join(' ')`                — `joinSpace`;
* JS `Array.prototype.sort` (stable since ES2019) — `stableSort`, a stable
  insertion sort taking the strict comes-before relation derived from the
  source's comparator;
* `new Date(x)` on a range bound — `Option Int`: `some t` is a parseable
  instant with epoch value `t`, `none` is an unparseable bound (`NaN`); every
  comparison against `NaN` is false, which `dateGE`/`dateLE` reproduce;
* a JS `Set` populated by successive `add` calls and drained with
  `Array.from` — `dedupFirst` (first occurrence kept, insertion order).

Note records always carry a string title; JS `note.title || ''` is the
identity on present string values (including the empty string), so it is
embedded as plain field access.
-/

/-- Characters strings are lists of `Char`. -/
abbrev Str := List Char

/-- Whitespace characters matched by the JS regex class `\s` (the characters
relevant to this corpus; exotic Unicode spaces are not used by the source
data). -/
def isWs (c : Char) : Bool :=
  c = ' ' || c = '\t' || c = '\n' || c = '\r'

/-- Word characters matched by the JS regex class `\w`: ASCII letters,
digits and underscore. -/
def isWordChar (c : Char) : Bool :=
  c.isAlphanum || c = '_'

/-- JS `toLowerCase`, character-wise. -/
def lower (s : Str) : Str := s.map Char.toLower

/-- Bool-valued prefix test on character lists. -/
def isPrefixOfL : Str → Str → Bool
  | [], _ => true
  | _ :: _, [] => false
  | a :: as, b :: bs => a = b && isPrefixOfL as bs

/-- Bool-valued substring test: does `needle` occur inside `hay`? -/
def isInfixOfL (needle hay : Str) : Bool :=
  match hay with
  | [] => needle.isEmpty
  | _ :: t => isPrefixOfL needle hay || isInfixOfL needle t

/-- JS `hay.includes(needle)`: substring containment. -/
def strContains (hay needle : Str) : Bool :=
  isInfixOfL needle hay

/-- Splitter on whitespace runs (accumulator-based; the accumulator holds the
current token reversed). -/
def splitWsAux : Str → Str → List Str
  | [], acc => if acc.isEmpty then [] else [acc.reverse]
  | c :: cs, acc =>
    if isWs c then
      if acc.isEmpty then splitWsAux cs [] else acc.reverse :: splitWsAux cs []
    else
      splitWsAux cs (c :: acc)

/-- JS `s.split(/\s+/)` restricted to non-empty tokens (see the header note:
extensionally identical at every call site of the source). -/
def splitWs (s : Str) : List Str := splitWsAux s []

/-- JS `arr.join(' ')`. -/
def joinSpace : List Str → Str
  | [] => []
  | [x] => x
  | x :: xs => x ++ ' ' :: joinSpace xs

/-- A tag carried by a note (`{id, name}`). -/
structure Tag where
  id : Nat
  name : Str
deriving DecidableEq, Repr

/-- A note record as returned by the external Note Store
(`noteService.getAllNotes()`): identifier, title, markdown content, optional
category id and denormalized category name, tag list, favorite flag and
updated timestamp (epoch instant). -/
structure Note where
  id : Nat
  title : Str
  content : Str
  category_id : Option Nat
  category_name : Option Str
  tags : List Tag
  is_favorite : Bool
  updated_at : Int
deriving DecidableEq, Repr

/-- `SearchService.generateSearchTerms`: split on whitespace runs, keep
tokens with raw length `> 2`, strip non-word characters from each survivor,
keep the results that are still non-empty. -/
def generateSearchTerms (content : Str) : List Str :=
  (((splitWs content).filter (fun term => term.length > 2)).map
      (fun term => term.filter isWordChar)).filter
    (fun term => term.length > 0)

/-- `SearchService.extractSearchableContent`: the lower-cased template string
composed of title, plain-text-extracted content, category name (empty when
absent) and the space-joined tag names.  `ept` is the external
`markdownService.extractPlainText` collaborator. -/
def extractSearchableContent (ept : Str → Str) (note : Note) : Str :=
  lower (note.title ++ ' ' :: ept note.content ++ ' ' ::
    (note.category_name.getD []) ++ ' ' :: joinSpace (note.tags.map Tag.name))

/-- An index entry: the note plus the two derived search fields. -/
structure IndexEntry where
  note : Note
  searchableContent : Str
  searchTerms : List Str
deriving DecidableEq, Repr

/-- Build the index entry stored for a note (`searchIndex.set(note.id, ...)`
payload). -/
def mkEntry (ept : Str → Str) (note : Note) : IndexEntry :=
  let sc := extractSearchableContent ept note
  { note := note, searchableContent := sc, searchTerms := generateSearchTerms sc }

/-- `Map.set` on the id-keyed insertion-ordered index: replace in place when
the id is present, append otherwise. -/
def mapSet (idx : List IndexEntry) (e : IndexEntry) : List IndexEntry :=
  if idx.any (fun x => x.note.id = e.note.id) then
    idx.map (fun x => if x.note.id = e.note.id then e else x)
  else
    idx ++ [e]

/-- The index contents produced by `buildSearchIndex` from a fetched corpus:
`notes.forEach(note => searchIndex.set(note.id, entry))` over a cleared map. -/
def buildIndex (ept : Str → Str) (notes : List Note) : List IndexEntry :=
  notes.foldl (fun idx n => mapSet idx (mkEntry ept n)) []

/-- The one failure the external Note Store can produce during a fetch. -/
inductive FetchErr where
  | fetchFailed
deriving DecidableEq, Repr

/-- The mutable service state: the insertion-ordered index map and the
build-once flag (named `initialized` in the source; renamed here because the
source name collides with a Lean keyword). -/
structure SearchState where
  searchIndex : List IndexEntry
  inited : Bool
deriving DecidableEq, Repr

/-- `SearchService.buildSearchIndex`: on a successful fetch, clear the map and
insert an entry per note; on a fetch failure the `catch` block only logs —
the error is swallowed, the map is left as it was (the `clear()` sits after
the `await`), and no failure is reported to the caller (the return type has
no error channel, exactly like the source method). -/
def buildSearchIndex (ept : Str → Str) (fetch : Except FetchErr (List Note))
    (s : SearchState) : SearchState :=
  match fetch with
  | Except.ok notes => { s with searchIndex := buildIndex ept notes }
  | Except.error _ => s

/-- The lazy-build entry point of the service (named `initialize` in the
source; renamed because the source name is a Lean keyword): build once, then
set the flag to `true` — unconditionally, even when the fetch inside
`buildSearchIndex` failed. -/
def lazyInit (ept : Str → Str) (fetch : Except FetchErr (List Note))
    (s : SearchState) : SearchState :=
  if s.inited then s
  else { buildSearchIndex ept fetch s with inited := true }

/-- `SearchService.rebuildIndex`: clear the flag and re-run the lazy build. -/
def rebuildIndex (ept : Str → Str) (fetch : Except FetchErr (List Note))
    (s : SearchState) : SearchState :=
  lazyInit ept fetch { s with inited := false }

/-- A pipeline item: an index entry plus the optional `score` field attached
(as a fresh object, via JS spread) by the scoring stage.  `none` models the
absence of the `score` property. -/
structure ScoredEntry where
  entry : IndexEntry
  score : Option Nat
deriving DecidableEq, Repr

/-- Wrap a stored index entry for the result pipeline (no `score` field). -/
def toScoredEntry (e : IndexEntry) : ScoredEntry := { entry := e, score := none }

/-- Does the entry's category name (lower-cased) contain the term?  Mirrors
the truthiness-guarded `note.category_name && note.category_name.toLowerCase()
.includes(term)` of the source. -/
def catMatch (e : IndexEntry) (term : Str) : Bool :=
  match e.note.category_name with
  | some c => strContains (lower c) term
  | none => false

/-- One iteration of the `queryTerms.forEach` body of
`SearchService.calculateRelevanceScore`: the sequential `score +=` updates
for a single query term. -/
def stepScore (e : IndexEntry) (score : Nat) (term : Str) : Nat :=
  let score := if strContains (lower e.note.title) term then score + 10 else score
  let score := if strContains e.searchableContent term then score + 5 else score
  let score := score +
    (e.searchTerms.filter
      (fun st => strContains st term || strContains term st)).length * 2
  let score := if catMatch e term then score + 3 else score
  e.note.tags.foldl
    (fun sc t => if strContains (lower t.name) term then sc + 3 else sc) score

/-- `SearchService.calculateRelevanceScore`. -/
def calculateRelevanceScore (e : IndexEntry) (queryTerms : List Str) : Nat :=
  queryTerms.foldl (stepScore e) 0

/-- Attach the computed relevance score to a fresh copy of the pipeline item
(the `{...note, score}` spread of the source). -/
def annotateScore (queryTerms : List Str) (x : ScoredEntry) : ScoredEntry :=
  { x with score := some (calculateRelevanceScore x.entry queryTerms) }

/-- Stable insertion used by `stableSort`: walk past every element that must
come strictly before `a`, insert `a` before the first element that need not. -/
def insertStable (lt : α → α → Bool) (a : α) : List α → List α
  | [] => [a]
  | b :: l => if lt b a then b :: insertStable lt a l else a :: b :: l

/-- Stable sort by a strict comes-before relation; models the (stable) JS
`Array.prototype.sort` with a comparator `c` via `lt a b = (c a b < 0)`. -/
def stableSort (lt : α → α → Bool) : List α → List α
  | [] => []
  | a :: l => insertStable lt a (stableSort lt l)

/-- Comes-before for the comparator `(a, b) => b.score - a.score` (score
descending; the stage that uses it only ever sees annotated items, `getD 0`
stands for the absent-field case). -/
def scoreLt (a b : ScoredEntry) : Bool :=
  decide (b.score.getD 0 < a.score.getD 0)

/-- Comes-before for `(a, b) => new Date(b.updated_at) - new Date(a.updated_at)`
(updated timestamp descending). -/
def dateLt (a b : ScoredEntry) : Bool :=
  decide (b.entry.note.updated_at < a.entry.note.updated_at)

/-- Strict lexicographic comes-before on character lists; models the title
comparator `(a.title || '').localeCompare(b.title || '')` with the locale
collation taken as code-point order. -/
def lexLt : Str → Str → Bool
  | [], [] => false
  | [], _ :: _ => true
  | _ :: _, [] => false
  | a :: as, b :: bs => if a < b then true else if b < a then false else lexLt as bs

/-- Comes-before for the title sort. -/
def titleLt (a b : ScoredEntry) : Bool :=
  lexLt a.entry.note.title b.entry.note.title

/-- `SearchService.filterByQuery`: lower-case and whitespace-split the query,
annotate every item with its relevance score, drop the items that scored 0,
sort the survivors by score descending. -/
def filterByQuery (notes : List ScoredEntry) (query : Str) : List ScoredEntry :=
  let queryTerms := splitWs (lower query)
  stableSort scoreLt
    ((notes.map (annotateScore queryTerms)).filter (fun x => 0 < x.score.getD 0))

/-- An inclusive date range whose bounds have been through `new Date(...)`:
`none` is an unparseable bound (`NaN`). -/
structure DateRange where
  start : Option Int
  stop : Option Int
deriving DecidableEq, Repr

/-- `noteDate >= startDate` under JS semantics: false when the bound is `NaN`. -/
def dateGE (d : Int) : Option Int → Bool
  | some s => decide (s ≤ d)
  | none => false

/-- `noteDate <= endDate` under JS semantics: false when the bound is `NaN`. -/
def dateLE (d : Int) : Option Int → Bool
  | some e => decide (d ≤ e)
  | none => false

/-- `SearchService.filterByDateRange`. -/
def filterByDateRange (notes : List ScoredEntry) (r : DateRange) :
    List ScoredEntry :=
  notes.filter (fun x =>
    dateGE x.entry.note.updated_at r.start && dateLE x.entry.note.updated_at r.stop)

/-- The three sort modes (`sortBy` strings of the source; every unknown string
falls into the `relevance` default of the `switch`). -/
inductive SortBy where
  | relevance
  | date
  | title
deriving DecidableEq, Repr

/-- `SearchOptions` as destructured at the top of `SearchService.search`,
with the source's defaults. -/
structure SearchOptions where
  categoryId : Option Nat := none
  tags : List Nat := []
  isFavorite : Option Bool := none
  dateRange : Option DateRange := none
  sortBy : SortBy := SortBy.relevance
  limit : Nat := 50
deriving DecidableEq, Repr

/-- `results[0]?.score !== undefined`. -/
def headHasScore : List ScoredEntry → Bool
  | [] => false
  | x :: _ => x.score.isSome

/-- `SearchService.sortResults`. -/
def sortResults (results : List ScoredEntry) (sortBy : SortBy) (query : Str) :
    List ScoredEntry :=
  match sortBy with
  | SortBy.date => stableSort dateLt results
  | SortBy.title => stableSort titleLt results
  | SortBy.relevance =>
    if !query.isEmpty && headHasScore results then stableSort scoreLt results
    else stableSort dateLt results

/-- The two shapes `SearchService.search` can return: the raw store listing
(pass-through path) or the pipeline items of the indexed path. -/
inductive SearchResult where
  | passThrough (notes : List Note)
  | indexed (items : List ScoredEntry)
deriving DecidableEq, Repr

/-- `SearchService.search`.  `corpus` is the listing the external Note Store
produces for this call (used both by the lazy build and by the pass-through
re-fetch; the store is modelled as answering consistently within the call).
Note that the pass-through guard tests query, category, tags and favorite —
but not the date range, exactly as the source condition
`!query && !categoryId && tags.length === 0 && isFavorite === null` does. -/
def search (ept : Str → Str) (corpus : List Note) (s : SearchState)
    (query : Str) (opts : SearchOptions) : SearchState × SearchResult :=
  let s1 := lazyInit ept (Except.ok corpus) s
  if query.isEmpty && opts.categoryId.isNone && opts.tags.isEmpty
      && opts.isFavorite.isNone then
    (s1, SearchResult.passThrough corpus)
  else
    let results0 := s1.searchIndex.map toScoredEntry
    let results1 := if query.isEmpty then results0 else filterByQuery results0 query
    let results2 := match opts.categoryId with
      | some c => results1.filter (fun x => x.entry.note.category_id = some c)
      | none => results1
    let results3 :=
      if opts.tags.isEmpty then results2
      else results2.filter (fun x =>
        x.entry.note.tags.any (fun t => opts.tags.contains t.id))
    let results4 := match opts.isFavorite with
      | some f => results3.filter (fun x => x.entry.note.is_favorite = f)
      | none => results3
    let results5 := match opts.dateRange with
      | some r => filterByDateRange results4 r
      | none => results4
    let results6 := sortResults results5 opts.sortBy query
    (s1, SearchResult.indexed (results6.take opts.limit))

/-- `suggestions.add(x)` on a JS `Set` drained in insertion order: append the
element unless it is already present. -/
def addUnique [DecidableEq α] (acc : List α) (a : α) : List α :=
  if a ∈ acc then acc else acc ++ [a]

/-- A JS `Set` populated left to right and drained with `Array.from`:
duplicate-free, first occurrence kept, insertion order. -/
def dedupFirst [DecidableEq α] (l : List α) : List α :=
  l.foldl addUnique []

/-- `SearchService.getSearchSuggestions`, applied to the (already built)
index contents: short queries yield nothing; otherwise three passes — titles,
then tag names, then category names — feed a deduplicating set, truncated to
`limit` (the source default is 5).  An absent category name is skipped by the
source's truthiness guard, which the `filterMap` reproduces. -/
def getSearchSuggestions (idx : List IndexEntry) (query : Str) (limit : Nat) :
    List Str :=
  if query.length < 2 then []
  else
    let ql := lower query
    let titleMatches :=
      (idx.map (fun e => e.note.title)).filter (fun t => strContains (lower t) ql)
    let tagMatches :=
      (idx.foldr (fun e acc => e.note.tags.map Tag.name ++ acc) []).filter
        (fun t => strContains (lower t) ql)
    let catMatches :=
      (idx.filterMap (fun e => e.note.category_name)).filter
        (fun t => strContains (lower t) ql)
    (dedupFirst (titleMatches ++ tagMatches ++ catMatches)).take limit

/-! ## Specification-side definitions

These restate, in the spec's words, the values the source is claimed to
compute; the theorems below compare them with the embedded source functions.
-/

/-- Spec 4.1, stated as a single rule per raw token: discard tokens whose raw
length is 2 or less, strip every non-word character, discard tokens that
become empty after stripping. -/
def tokRule (raw : Str) : Option Str :=
  if raw.length ≤ 2 then none
  else
    let stripped := raw.filter isWordChar
    if stripped = [] then none else some stripped

/-- Spec 4.1: the tokenizer as one order-preserving `filterMap` over the
whitespace-run tokens. -/
def tokenizeSpec (content : Str) : List Str :=
  (splitWs content).filterMap tokRule

/-- Spec 4.3a: the score one query term contributes to an entry — +10 for a
title hit, +5 for a searchable-content hit, +2 per symmetric-substring fuzzy
match among the stored search terms, +3 for a category hit and +3 per tag
hit. -/
def specTermScore (e : IndexEntry) (term : Str) : Nat :=
  (if strContains (lower e.note.title) term then 10 else 0) +
  (if strContains e.searchableContent term then 5 else 0) +
  2 * (e.searchTerms.filter
    (fun st => strContains st term || strContains term st)).length +
  (if catMatch e term then 3 else 0) +
  3 * (e.note.tags.filter (fun t => strContains (lower t.name) term)).length

/-- Spec 4.3a: an entry's score is the sum of the per-term contributions over
all query terms. -/
def specScore (e : IndexEntry) (queryTerms : List Str) : Nat :=
  (queryTerms.map (specTermScore e)).sum

/-! ## Concrete scenario data

The two-note scenario corpus of spec section 8, and a second two-note corpus
exercising sort ties.  The note contents are plain text, on which the
external `extractPlainText` collaborator is the identity (no markdown to
strip, nothing to trim). -/

/-- The plain-text extractor on plain-text contents. -/
def epId : Str → Str := fun s => s

/-- Scenario note 1: "Go Routines" / "concurrency patterns". -/
def goNote : Note :=
  { id := 1, title := "Go Routines".toList,
    content := "concurrency patterns".toList,
    category_id := none, category_name := none, tags := [],
    is_favorite := false, updated_at := 100 }

/-- Scenario note 2: "Rust Ownership" / "memory safety", tag "systems". -/
def rustNote : Note :=
  { id := 2, title := "Rust Ownership".toList,
    content := "memory safety".toList,
    category_id := none, category_name := none,
    tags := [{ id := 9, name := "systems".toList }],
    is_favorite := true, updated_at := 200 }

/-- The scenario corpus of spec section 8. -/
def scenarioCorpus : List Note := [goNote, rustNote]

/-- The scenario query. -/
def qConcurrency : Str := "concurrency".toList

/-- Tie-scenario note inserted first: matches the query "beta" with the
lower score (title hit + content hit + one fuzzy term hit). -/
def alphaNote : Note :=
  { id := 1, title := "alpha beta".toList, content := "xyz".toList,
    category_id := none, category_name := none, tags := [],
    is_favorite := false, updated_at := 100 }

/-- Tie-scenario note inserted second: same updated timestamp as
`alphaNote` but a higher relevance score for "beta". -/
def betaNote : Note :=
  { id := 2, title := "beta beta".toList, content := "beta beta beta".toList,
    category_id := none, category_name := none, tags := [],
    is_favorite := false, updated_at := 100 }

/-- The tie-scenario query. -/
def qBeta : Str := "beta".toList

/-- The note identifiers of a search result, in result order. -/
def resultIds : SearchResult → List Nat
  | SearchResult.passThrough ns => ns.map Note.id
  | SearchResult.indexed xs => xs.map (fun x => x.entry.note.id)

/-- A date range with an unparseable start bound. -/
def badRange : DateRange := { start := none, stop := some 250 }

/-- A concrete scored pipeline item used to instantiate stability lemmas. -/
def tieItem : ScoredEntry := { entry := mkEntry epId goNote, score := some 7 }

/-! ## Helper lemmas -/

/-- The tokenizer's filter/map/filter chain collapses to one `filterMap` of
the per-token rule. -/
theorem tokenize_chain (l : List Str) :
    ((l.filter (fun term => term.length > 2)).map
        (fun term => term.filter isWordChar)).filter
      (fun term => term.length > 0) = l.filterMap tokRule := by
  induction l with
  | nil => rfl
  | cons a l ih =>
    by_cases h2 : a.length > 2
    · by_cases h0 : (a.filter isWordChar).length > 0
      · have hne : ¬(a.filter isWordChar = []) := by
          intro h
          rw [h] at h0
          exact absurd h0 (by simp)
        simp only [List.filter_cons, List.filterMap_cons, tokRule]
        rw [if_pos (by exact decide_eq_true h2), if_neg (by omega), if_neg hne]
        simp only [List.map_cons, List.filter_cons]
        rw [if_pos (by exact decide_eq_true h0)]
        exact congrArg _ ih
      · have heq : a.filter isWordChar = [] := by
          cases hc : a.filter isWordChar with
          | nil => rfl
          | cons x xs => rw [hc] at h0; exact absurd (by simp) h0
        simp only [List.filter_cons, List.filterMap_cons, tokRule]
        rw [if_pos (by exact decide_eq_true h2), if_neg (by omega), if_pos heq]
        simp only [List.map_cons, List.filter_cons]
        rw [if_neg (by simp [h0])]
        exact ih
    · simp only [List.filter_cons, List.filterMap_cons, tokRule]
      rw [if_neg (by simp [h2]), if_pos (by omega)]
      exact ih

/-- Counting an output token of a `filterMap` counts the input tokens the
rule sends to it. -/
theorem count_filterMap_rule (f : Str → Option Str) (t : Str) :
    ∀ l : List Str, (l.filterMap f).count t = l.countP (fun a => f a = some t) := by
  intro l
  induction l with
  | nil => rfl
  | cons a l ih =>
    cases hfa : f a with
    | none => simp [List.filterMap_cons, hfa, List.countP_cons, ih]
    | some b =>
      by_cases hbt : b = t
      · subst hbt
        simp [List.filterMap_cons, hfa, List.countP_cons, List.count_cons, ih]
      · simp [List.filterMap_cons, hfa, List.countP_cons, List.count_cons, hbt, ih]

/-- Claim C4: the Tokenizer splits on whitespace runs, discards raw tokens of
length at most 2, strips non-word characters, discards tokens left empty —
one order-preserving, duplicate-keeping rule per raw token (the `count`
conjunct makes the duplicate-keeping explicit).  The Lean embedding is a
pure function, matching the no-side-effects part of the claim. -/
theorem tokenizer_matches_spec (content : Str) :
    generateSearchTerms content = tokenizeSpec content
    ∧ ∀ t : Str, (generateSearchTerms content).count t =
        (splitWs content).countP (fun raw => tokRule raw = some t) := by
  constructor
  · exact tokenize_chain (splitWs content)
  · intro t
    rw [show generateSearchTerms content = (splitWs content).filterMap tokRule from
      tokenize_chain (splitWs content)]
    exact count_filterMap_rule tokRule t (splitWs content)

/-- The tag-scoring `forEach` adds 3 per matching tag. -/
theorem tags_foldl_add (pred : Tag → Bool) :
    ∀ (tags : List Tag) (sc : Nat),
      tags.foldl (fun sc t => if pred t then sc + 3 else sc) sc =
        sc + 3 * (tags.filter pred).length := by
  intro tags
  induction tags with
  | nil => intro sc; simp
  | cons t ts ih =>
    intro sc
    by_cases h : pred t <;>
      · simp only [List.foldl_cons, List.filter_cons, h, if_true, if_false, ih]
        simp [h]
        try omega

/-- One loop iteration of `calculateRelevanceScore` adds exactly the spec's
per-term contribution. -/
theorem stepScore_adds_termScore (e : IndexEntry) (term : Str) (sc : Nat) :
    stepScore e sc term = sc + specTermScore e term := by
  unfold stepScore specTermScore
  rw [tags_foldl_add]
  by_cases h1 : strContains (lower e.note.title) term <;>
    by_cases h2 : strContains e.searchableContent term <;>
      by_cases h3 : catMatch e term <;>
        simp [h1, h2, h3] <;> omega

/-- The whole scoring loop computes the spec's sum. -/
theorem foldl_stepScore_eq (e : IndexEntry) :
    ∀ (queryTerms : List Str) (init : Nat),
      queryTerms.foldl (stepScore e) init =
        init + (queryTerms.map (specTermScore e)).sum := by
  intro queryTerms
  induction queryTerms with
  | nil => intro init; simp
  | cons t ts ih =>
    intro init
    simp only [List.foldl_cons, List.map_cons, List.sum_cons,
      stepScore_adds_termScore, ih]
    omega

/-- `insertStable` produces a permutation of the element consed on. -/
theorem insertStable_perm (lt : α → α → Bool) (a : α) :
    ∀ l : List α, List.Perm (insertStable lt a l) (a :: l) := by
  intro l
  induction l with
  | nil => exact List.Perm.refl _
  | cons b l ih =>
    unfold insertStable
    by_cases h : lt b a
    · rw [if_pos h]
      exact (ih.cons b).trans (List.Perm.swap a b l)
    · rw [if_neg h]

/-- `stableSort` permutes its input. -/
theorem stableSort_perm (lt : α → α → Bool) :
    ∀ l : List α, List.Perm (stableSort lt l) l := by
  intro l
  induction l with
  | nil => exact List.Perm.refl _
  | cons a l ih =>
    exact (insertStable_perm lt a (stableSort lt l)).trans (ih.cons a)

/-- Claim C2: for every entry the text-scoring stage computes the integer
score as the spec's sum over the lower-cased whitespace-split query terms
(+10 title, +5 searchable content, +2 per symmetric fuzzy term match, +3
category, +3 per matching tag); every 0-scoring entry is discarded and every
survivor is annotated with its score (the stage's output is the
score-annotated non-zero entries, up to the stage's score-descending
reordering). -/
theorem scoring_stage_matches_spec :
    (∀ (e : IndexEntry) (queryTerms : List Str),
      calculateRelevanceScore e queryTerms = specScore e queryTerms)
    ∧ ∀ (notes : List ScoredEntry) (query : Str),
        List.Perm (filterByQuery notes query)
          ((notes.map (fun x =>
            { x with score := some (specScore x.entry (splitWs (lower query))) })).filter
            (fun x => x.score.getD 0 ≠ 0)) := by
  have hscore : ∀ (e : IndexEntry) (queryTerms : List Str),
      calculateRelevanceScore e queryTerms = specScore e queryTerms := by
    intro e queryTerms
    unfold calculateRelevanceScore specScore
    simpa using foldl_stepScore_eq e queryTerms 0
  refine ⟨hscore, ?_⟩
  intro notes query
  unfold filterByQuery
  have hmap : notes.map (annotateScore (splitWs (lower query))) =
      notes.map (fun x =>
        { x with score := some (specScore x.entry (splitWs (lower query))) }) := by
    apply List.map_congr_left
    intro x _
    simp [annotateScore, hscore]
  have hfilter : ∀ l : List ScoredEntry,
      l.filter (fun x => 0 < x.score.getD 0) =
        l.filter (fun x => x.score.getD 0 ≠ 0) := by
    intro l
    apply List.filter_congr
    intro x _
    simp [Nat.pos_iff_ne_zero]
  show List.Perm
    (stableSort scoreLt
      ((notes.map (annotateScore (splitWs (lower query)))).filter
        (fun x => decide (0 < x.score.getD 0))))
    ((notes.map (fun x =>
      { x with score := some (specScore x.entry (splitWs (lower query))) })).filter
      (fun x => decide (x.score.getD 0 ≠ 0)))
  rw [hmap, hfilter]
  exact stableSort_perm _ _

/-- Inserting an element the filter rejects leaves the filtered view
unchanged. -/
theorem filter_insertStable_neg (lt : α → α → Bool) (p : α → Bool) (a : α)
    (hp : p a = false) :
    ∀ l : List α, (insertStable lt a l).filter p = l.filter p := by
  intro l
  induction l with
  | nil => simp [insertStable, hp]
  | cons b l ih =>
    unfold insertStable
    by_cases h : lt b a
    · rw [if_pos h]
      simp only [List.filter_cons, ih]
    · rw [if_neg h]
      simp [List.filter_cons, hp]

/-- Inserting an element the filter keeps, when nothing it keeps must come
strictly before it, puts it at the head of the filtered view. -/
theorem filter_insertStable_pos (lt : α → α → Bool) (p : α → Bool) (a : α)
    (hp : p a = true) (h : ∀ b, p b = true → lt b a = false) :
    ∀ l : List α, (insertStable lt a l).filter p = a :: l.filter p := by
  intro l
  induction l with
  | nil => simp [insertStable, hp]
  | cons b l ih =>
    unfold insertStable
    by_cases hba : lt b a
    · have hpb : p b = false := by
        cases hpb' : p b
        · rfl
        · rw [h b hpb'] at hba
          exact absurd hba (by simp)
      rw [if_pos hba]
      simp only [List.filter_cons, hpb, ih]
      simp
    · rw [if_neg hba]
      simp [List.filter_cons, hp]

/-- Stability of `stableSort`: elements that tie under `lt` (in the sense
that no kept element must come strictly before another kept element) appear
in the output in input order. -/
theorem filter_stableSort (lt : α → α → Bool) (p : α → Bool)
    (h : ∀ a b, p a = true → p b = true → lt a b = false) :
    ∀ l : List α, (stableSort lt l).filter p = l.filter p := by
  intro l
  induction l with
  | nil => rfl
  | cons a l ih =>
    show (insertStable lt a (stableSort lt l)).filter p = (a :: l).filter p
    by_cases hp : p a
    · rw [filter_insertStable_pos lt p a hp (fun b hb => h b a hb hp), ih]
      simp [List.filter_cons, hp]
    · rw [filter_insertStable_neg lt p a (by simp [hp]), ih]
      simp [List.filter_cons, hp]

/-- `lexLt` is irreflexive. -/
theorem lexLt_self (s : Str) : lexLt s s = false := by
  induction s with
  | nil => rfl
  | cons a s ih => simp [lexLt, ih]

/-- Claim C6 (counterexample): on the tie corpus — `alphaNote` inserted
first, `betaNote` second, equal updated timestamps — the date-mode search for
"beta" returns the entries in score order [2, 1], not in the Index's
insertion order [1, 2]: the scoring stage pre-sorts the survivors by score
before the date sort runs, so date ties keep score order, refuting the
claim's "regardless of their relevance scores". -/
theorem date_sort_tie_follows_score_order :
    (buildIndex epId [alphaNote, betaNote]).map (fun e => e.note.id) = [1, 2]
    ∧ alphaNote.updated_at = betaNote.updated_at
    ∧ resultIds (search epId [alphaNote, betaNote] { searchIndex := [], inited := false }
        qBeta { sortBy := SortBy.date }).2 = [2, 1]
    ∧ resultIds (search epId [alphaNote, betaNote] { searchIndex := [], inited := false }
        qBeta { sortBy := SortBy.date }).2 ≠ [1, 2] := by
  refine ⟨rfl, rfl, rfl, by decide⟩

/-- Claim C6 (amended): in every sort mode, entries that compare equal under
the mode's key appear in the result in the order of the sequence entering the
sort stage.  For query-less searches that entering order is the Index's
insertion order; for a search with a non-empty text query it is the
score-descending order produced by the scoring stage, so equal-key entries
under 'date' or 'title' are ordered by relevance score first and by insertion
order only within equal scores. -/
theorem sort_ties_preserve_stage_order :
    ∀ (results : List ScoredEntry) (query : Str) (v : Int) (t : Str) (w : Nat),
      ((sortResults results SortBy.date query).filter
          (fun x => decide (x.entry.note.updated_at = v)) =
        results.filter (fun x => decide (x.entry.note.updated_at = v)))
      ∧ ((sortResults results SortBy.title query).filter
          (fun x => decide (x.entry.note.title = t)) =
        results.filter (fun x => decide (x.entry.note.title = t)))
      ∧ ((!query.isEmpty && headHasScore results) = true →
          (sortResults results SortBy.relevance query).filter
            (fun x => decide (x.score.getD 0 = w)) =
          results.filter (fun x => decide (x.score.getD 0 = w)))
      ∧ (query = [] →
          (sortResults results SortBy.relevance query).filter
            (fun x => decide (x.entry.note.updated_at = v)) =
          results.filter (fun x => decide (x.entry.note.updated_at = v))) := by
  intro results query v t w
  refine ⟨?_, ?_, ?_, ?_⟩
  · exact filter_stableSort dateLt _
      (by
        intro a b ha hb
        simp only [decide_eq_true_eq] at ha hb
        simp [dateLt, ha, hb]) results
  · exact filter_stableSort titleLt _
      (by
        intro a b ha hb
        simp only [decide_eq_true_eq] at ha hb
        simp [titleLt, ha, hb, lexLt_self]) results
  · intro hcond
    show (if !query.isEmpty && headHasScore results then stableSort scoreLt results
      else stableSort dateLt results).filter _ = _
    rw [if_pos hcond]
    exact filter_stableSort scoreLt _
      (by
        intro a b ha hb
        simp only [decide_eq_true_eq] at ha hb
        simp [scoreLt, ha, hb]) results
  · intro hq
    subst hq
    show (if !(List.nil : Str).isEmpty && headHasScore results then
      stableSort scoreLt results else stableSort dateLt results).filter _ = _
    rw [if_neg (by simp [List.isEmpty])]
    exact filter_stableSort dateLt _
      (by
        intro a b ha hb
        simp only [decide_eq_true_eq] at ha hb
        simp [dateLt, ha, hb]) results

/-- Witness for the amended C6 theorem at concrete inputs. -/
theorem sort_ties_preserve_stage_order_witness :
    ((sortResults [tieItem] SortBy.date qBeta).filter
        (fun x => decide (x.entry.note.updated_at = 100)) =
      [tieItem].filter (fun x => decide (x.entry.note.updated_at = 100)))
    ∧ ((!qBeta.isEmpty && headHasScore [tieItem]) = true)
    ∧ ((sortResults [tieItem] SortBy.relevance qBeta).filter
        (fun x => decide (x.score.getD 0 = 7)) =
      [tieItem].filter (fun x => decide (x.score.getD 0 = 7)))
    ∧ ((sortResults [tieItem] SortBy.relevance []).filter
        (fun x => decide (x.entry.note.updated_at = 100)) =
      [tieItem].filter (fun x => decide (x.entry.note.updated_at = 100))) :=
  ⟨(sort_ties_preserve_stage_order [tieItem] qBeta 100 [] 7).1,
   by decide,
   (sort_ties_preserve_stage_order [tieItem] qBeta 100 [] 7).2.2.1 (by decide),
   (sort_ties_preserve_stage_order [tieItem] [] 100 [] 7).2.2.2 rfl⟩

/-- Membership in the deduplicating fold. -/
theorem mem_foldl_addUnique [DecidableEq α] (x : α) :
    ∀ (l acc : List α), x ∈ l.foldl addUnique acc ↔ x ∈ acc ∨ x ∈ l := by
  intro l
  induction l with
  | nil => intro acc; simp
  | cons a l ih =>
    intro acc
    rw [List.foldl_cons, ih]
    unfold addUnique
    by_cases h : a ∈ acc
    · rw [if_pos h]
      constructor
      · rintro (hx | hx)
        · exact Or.inl hx
        · exact Or.inr (List.mem_cons_of_mem a hx)
      · rintro (hx | hx)
        · exact Or.inl hx
        · rcases List.mem_cons.mp hx with rfl | hx
          · exact Or.inl h
          · exact Or.inr hx
    · rw [if_neg h]
      simp only [List.mem_append, List.mem_singleton, List.mem_cons]
      tauto

/-- The deduplicating fold preserves freedom from duplicates. -/
theorem nodup_foldl_addUnique [DecidableEq α] :
    ∀ (l acc : List α), acc.Nodup → (l.foldl addUnique acc).Nodup := by
  intro l
  induction l with
  | nil => intro acc h; exact h
  | cons a l ih =>
    intro acc h
    rw [List.foldl_cons]
    apply ih
    unfold addUnique
    by_cases hm : a ∈ acc
    · rw [if_pos hm]; exact h
    · rw [if_neg hm]
      rw [List.nodup_append]
      exact ⟨h, List.nodup_singleton a, by simpa using hm⟩

/-- The deduplicated set contains exactly the collected elements. -/
theorem mem_dedupFirst [DecidableEq α] (x : α) (l : List α) :
    x ∈ dedupFirst l ↔ x ∈ l := by
  unfold dedupFirst
  rw [mem_foldl_addUnique]
  simp

/-- The deduplicated set is duplicate-free. -/
theorem nodup_dedupFirst [DecidableEq α] (l : List α) : (dedupFirst l).Nodup :=
  nodup_foldl_addUnique l [] List.nodup_nil

/-- Claim C5: a query of fewer than 2 characters suggests nothing; otherwise
the suggestions are at most `limit` distinct strings, each containing the
query as a case-insensitive substring, collected duplicate-free in pass
order — matching titles, then matching tag names, then matching category
names — truncated to `limit`. -/
theorem suggestions_properties :
    ∀ (idx : List IndexEntry) (query : Str) (limit : Nat),
      (query.length < 2 → getSearchSuggestions idx query limit = [])
      ∧ (2 ≤ query.length →
          (getSearchSuggestions idx query limit).length ≤ limit
          ∧ (getSearchSuggestions idx query limit).Nodup
          ∧ (∀ t ∈ getSearchSuggestions idx query limit,
              strContains (lower t) (lower query) = true)
          ∧ getSearchSuggestions idx query limit =
            (dedupFirst
              (((idx.map (fun e => e.note.title)).filter
                  (fun t => strContains (lower t) (lower query)))
                ++ ((idx.foldr (fun e acc => e.note.tags.map Tag.name ++ acc) []).filter
                  (fun t => strContains (lower t) (lower query)))
                ++ ((idx.filterMap (fun e => e.note.category_name)).filter
                  (fun t => strContains (lower t) (lower query))))).take limit) := by
  intro idx query limit
  constructor
  · intro hlt
    unfold getSearchSuggestions
    rw [if_pos hlt]
  · intro hge
    have hform : getSearchSuggestions idx query limit =
        (dedupFirst
          (((idx.map (fun e => e.note.title)).filter
              (fun t => strContains (lower t) (lower query)))
            ++ ((idx.foldr (fun e acc => e.note.tags.map Tag.name ++ acc) []).filter
              (fun t => strContains (lower t) (lower query)))
            ++ ((idx.filterMap (fun e => e.note.category_name)).filter
              (fun t => strContains (lower t) (lower query))))).take limit := by
      unfold getSearchSuggestions
      rw [if_neg (by omega)]
    refine ⟨?_, ?_, ?_, hform⟩
    · rw [hform]
      exact List.length_take_le limit _
    · rw [hform]
      exact (List.take_sublist limit _).nodup (nodup_dedupFirst _)
    · intro t ht
      rw [hform] at ht
      have ht' := List.mem_of_mem_take ht
      rw [mem_dedupFirst] at ht'
      rcases List.mem_append.mp ht' with hm | hm
      · rcases List.mem_append.mp hm with hm' | hm'
        · exact (List.mem_filter.mp hm').2
        · exact (List.mem_filter.mp hm').2
      · exact (List.mem_filter.mp hm).2

/-- Witness for the C5 theorem: the short-query case at query "s", and the
bounded/duplicate-free/containment case at query "sy" over the scenario
index. -/
theorem suggestions_properties_witness :
    getSearchSuggestions (buildIndex epId scenarioCorpus) ['s'] 5 = []
    ∧ (getSearchSuggestions (buildIndex epId scenarioCorpus) ['s', 'y'] 5).length ≤ 5 :=
  ⟨(suggestions_properties (buildIndex epId scenarioCorpus) ['s'] 5).1 (by decide),
   ((suggestions_properties (buildIndex epId scenarioCorpus) ['s', 'y'] 5).2
     (by decide)).1⟩

/-- Sorting an empty result list yields an empty list in every mode. -/
theorem sortResults_nil (sb : SortBy) (query : Str) :
    sortResults [] sb query = [] := by
  cases sb <;> simp [sortResults, stableSort, headHasScore]

/-- A date range with an unparseable bound keeps no entry: every comparison
against a `NaN` bound is false. -/
theorem filterByDateRange_invalid_bound (r : DateRange)
    (hbad : r.start = none ∨ r.stop = none) :
    ∀ notes : List ScoredEntry, filterByDateRange notes r = [] := by
  intro notes
  unfold filterByDateRange
  rcases hbad with h | h <;> rw [h]
  · simp [dateGE]
  · simp [dateLE]

/-- Claim C7 (counterexample): a search whose options carry a date range with
an unparseable start bound does not fail — it silently returns an empty
result, treating the unparseable range as matching nothing, even though the
query "concurrency" matches a note of the corpus (with score 7). -/
theorem invalid_date_bound_returns_empty :
    (search epId scenarioCorpus { searchIndex := [], inited := false }
        qConcurrency { dateRange := some badRange }).2 = SearchResult.indexed []
    ∧ calculateRelevanceScore (mkEntry epId goNote) (splitWs (lower qConcurrency)) = 7 := by
  refine ⟨?_, ?_⟩ <;> rfl

/-- Claim C7 (amended): the search pipeline performs no validation of its
options.  A date range with an unparseable start or end bound is silently
treated as matching nothing: the date filter drops every entry (all `NaN`
comparisons are false) and a query search returns an empty indexed result
instead of a validation error. -/
theorem invalid_date_bounds_match_nothing :
    ∀ (ept : Str → Str) (corpus : List Note) (s : SearchState) (query : Str)
      (opts : SearchOptions) (r : DateRange),
      query ≠ [] → opts.dateRange = some r → (r.start = none ∨ r.stop = none) →
      (∀ notes : List ScoredEntry, filterByDateRange notes r = [])
      ∧ (search ept corpus s query opts).2 = SearchResult.indexed [] := by
  intro ept corpus s query opts r hq hdr hbad
  refine ⟨filterByDateRange_invalid_bound r hbad, ?_⟩
  have hqe : query.isEmpty = false := by
    cases query with
    | nil => exact absurd rfl hq
    | cons a l => rfl
  unfold search
  rw [hqe, hdr]
  simp only [Bool.false_and, if_false]
  rw [filterByDateRange_invalid_bound r hbad, sortResults_nil]
  simp

/-- Witness for the amended C7 theorem at a concrete call. -/
theorem invalid_date_bounds_match_nothing_witness :
    (∀ notes : List ScoredEntry, filterByDateRange notes badRange = [])
    ∧ (search epId scenarioCorpus { searchIndex := [], inited := false }
        qConcurrency { dateRange := some badRange }).2 = SearchResult.indexed [] :=
  invalid_date_bounds_match_nothing epId scenarioCorpus
    { searchIndex := [], inited := false } qConcurrency
    { dateRange := some badRange } badRange (by decide) rfl (Or.inl rfl)

/-- Claim C1 (code evaluation at the failing input): with an empty query and
options that set only a date range covering exactly one of the two scenario
notes, `search` takes the pass-through path and returns the whole store
listing — the guard `!query && !categoryId && tags.length === 0 &&
isFavorite === null` never consults the date range.  The second conjunct
shows the range, had the indexed path run, keeps exactly one entry. -/
theorem date_range_only_search_passes_through :
    (search epId scenarioCorpus { searchIndex := [], inited := false } []
        { dateRange := some { start := some 150, stop := some 250 } }).2 =
      SearchResult.passThrough scenarioCorpus
    ∧ (filterByDateRange ((buildIndex epId scenarioCorpus).map toScoredEntry)
        { start := some 150, stop := some 250 }).length = 1
    ∧ scenarioCorpus.length = 2 := by
  refine ⟨?_, ?_, ?_⟩ <;> rfl

/-- Claim C3 (code evaluation at the failing input): when the corpus fetch
fails during the first build, the service still sets its build-once flag —
the `catch` block swallows the error, so nothing is propagated and later
queries run over the empty index; a failed rebuild likewise keeps the stale
flag set (though it does preserve the previous index contents, since the
`clear()` sits after the failed `await`). -/
theorem failed_fetch_still_marks_ready :
    lazyInit epId (Except.error FetchErr.fetchFailed)
        { searchIndex := [], inited := false } =
      { searchIndex := [], inited := true }
    ∧ rebuildIndex epId (Except.error FetchErr.fetchFailed)
        { searchIndex := buildIndex epId [goNote], inited := true } =
      { searchIndex := buildIndex epId [goNote], inited := true } := by
  refine ⟨?_, ?_⟩ <;> rfl

/-- Claim C8 (counterexample): the scenario search for "concurrency" does not
return note 1 with relevance score 5 — the stored search terms of note 1
include "concurrency" itself, which the symmetric fuzzy match counts for a
further +2 on top of the +5 content hit. -/
theorem scenario_score_is_not_five :
    (search epId scenarioCorpus { searchIndex := [], inited := false }
        qConcurrency {}).2 ≠
      SearchResult.indexed [{ entry := mkEntry epId goNote, score := some 5 }] := by
  decide

/-- Claim C8 (amended): the scenario search for "concurrency" returns exactly
one result, note 1, with relevance score 7 (+5 for the searchable-content
substring hit, +2 for the fuzzy match against the stored term
"concurrency"). -/
theorem scenario_search_returns_note1_score7 :
    (search epId scenarioCorpus { searchIndex := [], inited := false }
        qConcurrency {}).2 =
      SearchResult.indexed [{ entry := mkEntry epId goNote, score := some 7 }] := by
  rfl

/-- Claim C9: the lazy build is idempotent — running it twice from any state
yields exactly the state of running it once (in particular the same index
entries and count), and on an already-built state it is a no-op. -/
theorem lazyInit_idempotent :
    ∀ (ept : Str → Str) (fetch : Except FetchErr (List Note)) (s : SearchState),
      lazyInit ept fetch (lazyInit ept fetch s) = lazyInit ept fetch s
      ∧ (s.inited = true → lazyInit ept fetch s = s) := by
  intro ept fetch s
  constructor
  · by_cases h : s.inited <;> simp [lazyInit, h]
  · intro h
    simp [lazyInit, h]

/-- Witness for the C9 theorem: a second build over the scenario corpus is a
no-op on the state the first build produced. -/
theorem lazyInit_idempotent_witness :
    lazyInit epId (Except.ok scenarioCorpus)
        { searchIndex := buildIndex epId scenarioCorpus, inited := true } =
      { searchIndex := buildIndex epId scenarioCorpus, inited := true } :=
  (lazyInit_idempotent epId (Except.ok scenarioCorpus)
    { searchIndex := buildIndex epId scenarioCorpus, inited := true }).2 rfl

/-- Claim C10: `search` never mutates the index beyond triggering the lazy
build — its post-state is exactly the lazily-built pre-state, and on an
already-Ready state the pre-state itself; scores live only on the fresh
pipeline copies (`ScoredEntry`), never on the stored `IndexEntry` values, so
the stored entries and all their fields are unchanged by any query. -/
theorem search_leaves_index_unchanged :
    ∀ (ept : Str → Str) (corpus : List Note) (s : SearchState) (query : Str)
      (opts : SearchOptions),
      (search ept corpus s query opts).1 = lazyInit ept (Except.ok corpus) s
      ∧ (s.inited = true → (search ept corpus s query opts).1 = s) := by
  intro ept corpus s query opts
  have h1 : (search ept corpus s query opts).1 = lazyInit ept (Except.ok corpus) s := by
    unfold search
    split <;> rfl
  refine ⟨h1, ?_⟩
  intro h
  rw [h1]
  simp [lazyInit, h]

/-- Witness for the C10 theorem: a scored query over a Ready state returns
that state untouched. -/
theorem search_leaves_index_unchanged_witness :
    (search epId scenarioCorpus
        { searchIndex := buildIndex epId scenarioCorpus, inited := true }
        qConcurrency {}).1 =
      { searchIndex := buildIndex epId scenarioCorpus, inited := true } :=
  (search_leaves_index_unchanged epId scenarioCorpus
    { searchIndex := buildIndex epId scenarioCorpus, inited := true }
    qConcurrency {}).2 rfl
